import Mathlib

/-!
Verification of the OTA update engine of `src/main.py` (class `OTAUpdater`).

The embedding models:
* Python string comparison (`>` on `str`) as lexicographic comparison of
  character code points (`pyGt`);
* the on-flash filesystem as a tree of named entries (`Node`), with the
  operations the code uses: `os.listdir`, `open(..., 'r'/'w')`,
  `os.makedirs(..., exist_ok=True)`, `os.remove`, `os.rmdir`, `os.rename`,
  `os.ilistdir` (entry kind 0x4000 = directory);
* `ujson.dumps({'version': v})` / `ujson.loads` restricted to the version
  documents this program itself writes (`dumpVersionDoc` / `parseVersionDoc`,
  with JSON string escaping);
* the network (`requests.get`) as an abstract `Remote` record; a `none`
  answer models a transport error (an exception raised by `requests.get`);
* exceptions as an `Option` result paired with the state reached so far
  (Python state mutations survive a raised exception).

Paths such as `'next/.version'` built by string concatenation in the source
are rendered as their component lists (`["next", ".version"]`).
-/

namespace OTA

/-! ## Python string comparison

Python compares `str` values lexicographically by Unicode code point.
`version > current` in the source is `pyGt version current` here. -/

def pyLtChars : List Char → List Char → Bool
  | [], [] => false
  | [], _ :: _ => true
  | _ :: _, [] => false
  | a :: as, b :: bs =>
    if a.val < b.val then true
    else if b.val < a.val then false
    else pyLtChars as bs

def pyGt (a b : String) : Bool := pyLtChars b.data a.data

/-! ## Version documents

`create_version_file` writes `ujson.dumps({'version': version})`;
`get_version` reads a file and evaluates `ujson.loads(...)['version']`,
returning `'0.0.0'` on any failure.  JSON string escaping is modelled for
the two characters `ujson` must escape to keep round trips exact. -/

def escapeChars : List Char → List Char
  | [] => []
  | c :: cs =>
    if c = '"' ∨ c = '\\' then '\\' :: c :: escapeChars cs
    else c :: escapeChars cs

/-- Parse a JSON string body up to its closing quote; returns the decoded
content and the remaining characters. -/
def parseStrBody : List Char → Option (List Char × List Char)
  | [] => none
  | c :: cs =>
    if c = '\\' then
      match cs with
      | [] => none
      | d :: ds => (parseStrBody ds).map (fun p => (d :: p.1, p.2))
    else if c = '"' then some ([], cs)
    else (parseStrBody cs).map (fun p => (c :: p.1, p.2))

def docHead : List Char := "\x7b\"version\": \"".data

def docTail : List Char := "\"\x7d".data

/-- `ujson.dumps({'version': v})`. -/
def dumpVersionDoc (v : String) : String :=
  String.mk (docHead ++ escapeChars v.data ++ docTail)

/-- `ujson.loads(s)['version']` restricted to documents of the shape this
program writes; `none` models any exception (malformed JSON, missing
field). -/
def parseVersionDoc (s : String) : Option String :=
  if s.data.take docHead.length = docHead then
    match parseStrBody (s.data.drop docHead.length) with
    | some (body, rest) => if rest = ['\x7d'] then some (String.mk body) else none
    | none => none
  else none

/-! ## Filesystem model -/

/-- A filesystem node: a file with string content, or a directory with a
list of named entries (listing order preserved). -/
inductive Node where
  | file (content : String)
  | dir (entries : List (String × Node))

/-- First entry with the given name (real filesystems have unique names;
the model consistently acts on the first occurrence). -/
def findEntry (n : String) : List (String × Node) → Option Node
  | [] => none
  | (k, v) :: es => if k = n then some v else findEntry n es

/-- Remove the first entry with the given name. -/
def eraseEntry (n : String) : List (String × Node) → List (String × Node)
  | [] => []
  | (k, v) :: es => if k = n then es else (k, v) :: eraseEntry n es

/-- Apply `f` to the first entry with the given name. -/
def modEntry (n : String) (f : Node → Node) : List (String × Node) → List (String × Node)
  | [] => []
  | (k, v) :: es => if k = n then (k, f v) :: es else (k, v) :: modEntry n f es

def namesOf (es : List (String × Node)) : List String := es.map Prod.fst

def rootEntries : Node → List (String × Node)
  | .dir es => es
  | .file _ => []

/-- Resolve a component path from a node. -/
def lookupN : Node → List String → Option Node
  | n, [] => some n
  | .dir es, name :: rest =>
    match findEntry name es with
    | some c => lookupN c rest
    | none => none
  | .file _, _ :: _ => none

/-- Rewrite the node at a component path (first-occurrence semantics,
identity where the path does not resolve). -/
def mapAt : Node → List String → (Node → Node) → Node
  | n, [], f => f n
  | .dir es, name :: rest, f => .dir (modEntry name (fun c => mapAt c rest f) es)
  | .file c, _ :: _, _ => .file c

/-- Drop entry `n` of a directory node (identity on files). -/
def dirErase (n : String) : Node → Node
  | .dir es => .dir (eraseEntry n es)
  | .file c => .file c

/-- Remove the entry named `n` of the directory at path `d`. -/
def eraseAt (fs : Node) (d : List String) (n : String) : Node :=
  mapAt fs d (dirErase n)

/-- `os.makedirs(path, exist_ok=True)`: create missing directories along
the path; raises (`none`) if a file blocks a component. -/
def makedirsN : Node → List String → Option Node
  | n, [] => some n
  | .dir es, name :: rest =>
    match findEntry name es with
    | some (.dir es') =>
      (makedirsN (.dir es') rest).map fun sub => .dir (modEntry name (fun _ => sub) es)
    | some (.file _) => none
    | none =>
      (makedirsN (.dir []) rest).map fun sub => .dir (es ++ [(name, sub)])
  | .file _, _ :: _ => none

/-- `open(path, 'w')` followed by a write: parent directories must exist;
overwrites a file, raises (`none`) on a directory target or missing
parent. -/
def writeN : Node → List String → String → Option Node
  | .file _, _, _ => none
  | .dir _, [], _ => none
  | .dir es, name :: rest, content =>
    match rest with
    | [] =>
      match findEntry name es with
      | some (.file _) => some (.dir (modEntry name (fun _ => .file content) es))
      | some (.dir _) => none
      | none => some (.dir (es ++ [(name, .file content)]))
    | _ :: _ =>
      match findEntry name es with
      | some sub => (writeN sub rest content).map fun sub' => .dir (modEntry name (fun _ => sub') es)
      | none => none

/-- `os.rename(src, dst)` at the root, as used by the installer after the
old directory has been removed: requires the source present and the
destination name free. -/
def renameRootN (fs : Node) (src dst : String) : Option Node :=
  match fs with
  | .dir es =>
    match findEntry src es with
    | some node =>
      if (findEntry dst es).isSome then none
      else some (.dir (eraseEntry src es ++ [(dst, node)]))
    | none => none
  | .file _ => none

/-- Split a character list on a separator character (the semantics of
`str.split(sep)` / `String.splitOn` for a one-character separator). -/
def splitOnChar (sep : Char) : List Char → List (List Char)
  | [] => [[]]
  | c :: cs =>
    if c = sep then [] :: splitOnChar sep cs
    else
      match splitOnChar sep cs with
      | [] => [[c]]
      | seg :: segs => (c :: seg) :: segs

/-- `os.path.dirname`/path splitting: components of a relative path string
(empty segments dropped, so `'next/'` has components `["next"]`). -/
def pathComponents (s : String) : List String :=
  ((splitOnChar '/' s.data).map String.mk).filter (fun x => x ≠ "")

/-! ## The recursive delete `OTAUpdater.rmtree`

The source walks `os.ilistdir(directory)`, recursing into entries of kind
`0x4000` (directories) and calling `os.remove` on the others, then calls
`os.rmdir(directory)`.  The traversal is embedded as the sequence of
primitive storage operations it issues (`rmtreeOps`), and those primitives
are given their real preconditions: `os.remove` succeeds only on a file,
`os.rmdir` only on an empty directory — so the trace can only succeed if
contents are removed before their directory (post-order). -/

/-- A primitive delete operation: `os.remove` / `os.rmdir` of entry `n`
inside the directory at path `d`. -/
inductive Op where
  | removeFile (d : List String) (n : String)
  | removeDir (d : List String) (n : String)

def applyOp (fs : Node) : Op → Option Node
  | .removeFile d n =>
    match lookupN fs (d ++ [n]) with
    | some (.file _) => some (eraseAt fs d n)
    | _ => none
  | .removeDir d n =>
    match lookupN fs (d ++ [n]) with
    | some (.dir []) => some (eraseAt fs d n)
    | _ => none

def applyOps : Node → List Op → Option Node
  | fs, [] => some fs
  | fs, op :: ops =>
    match applyOp fs op with
    | some fs' => applyOps fs' ops
    | none => none

mutual

/-- Operations issued by `rmtree(d ++ [n])` when that entry currently
holds `node`. -/
def rmtreeOps (d : List String) (n : String) : Node → List Op
  | .file _ => []
  | .dir es => rmtreeEntries (d ++ [n]) es ++ [Op.removeDir d n]

/-- Operations issued by the `for entry in os.ilistdir(p)` loop body over
the listed entries. -/
def rmtreeEntries (p : List String) : List (String × Node) → List Op
  | [] => []
  | (n, .file _) :: rest => Op.removeFile p n :: rmtreeEntries p rest
  | (n, .dir es) :: rest => rmtreeOps p n (.dir es) ++ rmtreeEntries p rest

end

/-- Running `self.rmtree(name)` on a root entry: `os.ilistdir` raises if
the target is missing or a file; otherwise the generated trace is
applied. -/
def rmtreeRun (fs : Node) (name : String) : Option Node :=
  match lookupN fs [name] with
  | some (.dir es) => applyOps fs (rmtreeOps [] name (.dir es))
  | _ => none

/-! ## System state and the `OTAUpdater` operations

Construction site: `trigger_ota_update` builds
`OTAUpdater(..., main_dir='main', new_version_dir='next')`, and `__init__`
sets `version_file = 'version.json'`.  Each `requests.get` is logged. -/

def main_dir : String := "main"

def new_version_dir : String := "next"

/-- `self.version_file` — note: at the filesystem root, not inside
`main_dir`. -/
def version_file : List String := ["version.json"]

/-- One `requests.get` issued by the updater. -/
inductive Req where
  | versionReq
  | fileListReq
  | fileReq (path : String)
deriving DecidableEq

structure Sys where
  fs : Node
  resets : Nat
  log : List Req

/-- The remote server: `none` in a field models a transport error or a
malformed payload (an exception out of `requests.get` / `.json()`). -/
structure Remote where
  latestVersion : Option String
  fileList : Option (List String)
  files : String → Option (Nat × String)

/-- `OTAUpdater.get_version`: total, returns `'0.0.0'` on any read or
parse failure (`try ... except: return '0.0.0'`). -/
def get_version (fs : Node) (p : List String) : String :=
  match lookupN fs p with
  | some (.file s) =>
    match parseVersionDoc s with
    | some v => v
    | none => "0.0.0"
  | _ => "0.0.0"

/-- `OTAUpdater.create_version_file`: `os.makedirs(new_version_dir,
exist_ok=True)` then write `new_version_dir + '/.version'`. -/
def create_version_file (fs : Node) (version : String) : Option Node :=
  match makedirsN fs [new_version_dir] with
  | some fs1 => writeN fs1 [new_version_dir, ".version"] (dumpVersionDoc version)
  | none => none

/-- `OTAUpdater.get_latest_version`: GET of the version document, then
`response.json()['version']`. -/
def get_latest_version (r : Remote) (s : Sys) : Option String × Sys :=
  (r.latestVersion, { s with log := s.log ++ [Req.versionReq] })

/-- `OTAUpdater.get_file_list`: GET of `file_list.json`. -/
def get_file_list (r : Remote) (s : Sys) : Option (List String) × Sys :=
  (r.fileList, { s with log := s.log ++ [Req.fileListReq] })

/-- `OTAUpdater.download_file`: GET; on status 200 make the parent
directories under the staging root and write the body; on any other
status skip the file; a transport error raises. -/
def download_file (r : Remote) (s : Sys) (f : String) : Option Unit × Sys :=
  match r.files f with
  | none => (none, { s with log := s.log ++ [Req.fileReq f] })
  | some (status, body) =>
    if status = 200 then
      match makedirsN s.fs (new_version_dir :: (pathComponents f).dropLast) with
      | none => (none, { s with log := s.log ++ [Req.fileReq f] })
      | some fs2 =>
        match writeN fs2 (new_version_dir :: pathComponents f) body with
        | none => (none, { s with fs := fs2, log := s.log ++ [Req.fileReq f] })
        | some fs3 => (some (), { s with fs := fs3, log := s.log ++ [Req.fileReq f] })
    else (some (), { s with log := s.log ++ [Req.fileReq f] })

/-- The `for file in file_list` loop of `download_all_files`. -/
def download_files_loop (r : Remote) : Sys → List String → Option Unit × Sys
  | s, [] => (some (), s)
  | s, f :: rest =>
    match download_file r s f with
    | (some _, s') => download_files_loop r s' rest
    | (none, s') => (none, s')

/-- `OTAUpdater.download_all_files`: fetch the manifest, download each
listed file, then write the staging marker. -/
def download_all_files (r : Remote) (s : Sys) (version : String) : Option Unit × Sys :=
  match get_file_list r s with
  | (none, s1) => (none, s1)
  | (some fl, s1) =>
    match download_files_loop r s1 fl with
    | (none, s2) => (none, s2)
    | (some _, s2) =>
      match create_version_file s2.fs version with
      | none => (none, s2)
      | some fs' => (some (), { s2 with fs := fs' })

/-- `OTAUpdater.download_latest_version`: fetch the latest version token
and unconditionally download the whole release for it. -/
def download_latest_version (r : Remote) (s : Sys) : Option String × Sys :=
  match get_latest_version r s with
  | (none, s1) => (none, s1)
  | (some v, s1) =>
    match download_all_files r s1 v with
    | (none, s2) => (none, s2)
    | (some _, s2) => (some v, s2)

/-- `OTAUpdater.install_update_if_available`: if the staging directory and
its `.version` marker exist and the staged version is `>` (Python string
comparison) the active one, delete `main_dir`, rename the staging
directory onto it and call `machine.reset()`. -/
def install_update_if_available (s : Sys) : Option Unit × Sys :=
  match findEntry new_version_dir (rootEntries s.fs) with
  | none => (some (), s)
  | some (.file _) => (none, s)
  | some (.dir nes) =>
    if (namesOf nes).contains ".version" then
      if pyGt (get_version s.fs [new_version_dir, ".version"]) (get_version s.fs version_file) then
        match rmtreeRun s.fs main_dir with
        | none => (none, s)
        | some fs1 =>
          match renameRootN fs1 new_version_dir main_dir with
          | none => (none, { s with fs := fs1 })
          | some fs2 => (some (), { s with fs := fs2, resets := s.resets + 1 })
      else (some (), s)
    else (some (), s)

/-- `OTAUpdater.check_for_update_to_install_during_next_reboot`. -/
def check_for_update_to_install_during_next_reboot (s : Sys) : Option Bool × Sys :=
  match findEntry new_version_dir (rootEntries s.fs) with
  | none => (some false, s)
  | some (.file _) => (none, s)
  | some (.dir nes) =>
    if (namesOf nes).contains ".version" then
      if pyGt (get_version s.fs [new_version_dir, ".version"]) (get_version s.fs version_file) then
        match install_update_if_available s with
        | (none, s') => (none, s')
        | (some _, s') => (some true, s')
      else (some false, s)
    else (some false, s)

/-- `OTAUpdater.download_and_install_update_if_available`.  Note the
source reads `current_version` before calling `download_latest_version`;
with `version_file` outside the directories the download touches, that
early read equals a read from the final state as well. -/
def download_and_install_update_if_available (r : Remote) (s : Sys) : Option Bool × Sys :=
  match download_latest_version r s with
  | (none, s1) => (none, s1)
  | (some latest, s1) =>
    if pyGt latest (get_version s.fs version_file) then
      match install_update_if_available s1 with
      | (none, s2) => (none, s2)
      | (some _, s2) => (some true, s2)
    else (some false, s1)

/-- `OTAUpdater.check_for_update`. -/
def check_for_update (r : Remote) (s : Sys) : Option Bool × Sys :=
  match get_latest_version r s with
  | (none, s1) => (none, s1)
  | (some latest, s1) => (some (pyGt latest (get_version s.fs version_file)), s1)

/-! ## Dotted-integer (semantic) version comparison

Modelled from the spec: the "dotted-integer semantic comparison" the spec
names as the sound comparator (§9) — split on `.`, parse each segment as a
decimal integer, compare segment lists lexicographically.  This is the
yardstick of claim C8, not code of the repository. -/

def charsToNat : List Char → Option Nat
  | [] => none
  | cs => cs.foldl (fun acc c => match acc with
      | none => none
      | some n => if c.isDigit then some (n * 10 + (c.toNat - 48)) else none)
      (some 0)

def semverSegs (s : String) : Option (List Nat) :=
  (splitOnChar '.' s.data).mapM charsToNat

def natListLt : List Nat → List Nat → Bool
  | [], [] => false
  | [], _ :: _ => true
  | _ :: _, [] => false
  | a :: as, b :: bs =>
    if a < b then true else if b < a then false else natListLt as bs

/-- `semverNewer remote active`: the remote token is strictly newer under
dotted-integer comparison. -/
def semverNewer (remote active : String) : Bool :=
  match semverSegs remote, semverSegs active with
  | some a, some b => natListLt b a
  | _, _ => false

/-! ## Concrete scenario states -/

/-- Stale-server scenario state: active marker `2.0.0`. -/
def sStale : Sys :=
  { fs := .dir [("version.json", .file (dumpVersionDoc "2.0.0"))], resets := 0, log := [] }

/-- Stale-server remote: version document `{"version": "1.9.0"}`, one
release file answering HTTP 200. -/
def rStale : Remote :=
  { latestVersion := some "1.9.0", fileList := some ["a.txt"],
    files := fun _ => some (200, "payload") }

/-- End-to-end scenario state: active marker `1.0.0`, active directory
with old content. -/
def sE2E : Sys :=
  { fs := .dir [("version.json", .file (dumpVersionDoc "1.0.0")),
                ("main", .dir [("old.txt", .file "old"), ("sub", .dir [("x", .file "x")])])],
    resets := 0, log := [] }

/-- End-to-end remote: version `1.1.0`, file list `["a.txt", "dir/b.txt"]`,
both files HTTP 200. -/
def rE2E : Remote :=
  { latestVersion := some "1.1.0",
    fileList := some ["a.txt", "dir/b.txt"],
    files := fun f =>
      if f = "a.txt" then some (200, "A")
      else if f = "dir/b.txt" then some (200, "B") else none }

/-- A state with a complete staging area at version `1.1.0` over an active
install at version `1.0.0`. -/
def sStaged : Sys :=
  { fs := .dir [("version.json", .file (dumpVersionDoc "1.0.0")),
                ("main", .dir [("old.txt", .file "old")]),
                ("next", .dir [("a.txt", .file "A"), (".version", .file (dumpVersionDoc "1.1.0"))])],
    resets := 0, log := [] }

/-- A staging area holding files but no `.version` marker. -/
def sIncomplete : Sys :=
  { fs := .dir [("version.json", .file (dumpVersionDoc "1.0.0")),
                ("main", .dir [("old.txt", .file "old")]),
                ("next", .dir [("a.txt", .file "A")])],
    resets := 0, log := [] }

/-- State used for the download-cycle scenarios: just an active marker. -/
def sPlain : Sys :=
  { fs := .dir [("version.json", .file (dumpVersionDoc "1.0.0"))], resets := 0, log := [] }

/-- Remote whose second file suffers a transport error (`requests.get`
raises). -/
def rAbort : Remote :=
  { latestVersion := some "9", fileList := some ["ok.txt", "bad.txt"],
    files := fun f => if f = "ok.txt" then some (200, "OK") else none }

/-- Remote whose second file answers HTTP 404 (a per-file failure that is
skipped). -/
def rSkip : Remote :=
  { latestVersion := some "9", fileList := some ["ok.txt", "bad.txt"],
    files := fun f => if f = "ok.txt" then some (200, "OK") else some (404, "nope") }

/-- A nested directory tree used to exercise the recursive delete. -/
def fsTree : Node :=
  .dir [("main", .dir [("a.txt", .file "a"),
                       ("d", .dir [("b.txt", .file "b"), ("e", .dir [("c.txt", .file "c")])]),
                       ("z.txt", .file "z")]),
        ("keep.txt", .file "k")]

/-- State reached by the stale-server run: the release was fetched and
staged even though it is older than the active version. -/
def sStaleAfter : Sys :=
  { fs := .dir [("version.json", .file (dumpVersionDoc "2.0.0")),
                ("next", .dir [("a.txt", .file "payload"),
                               (".version", .file (dumpVersionDoc "1.9.0"))])],
    resets := 0,
    log := [Req.versionReq, Req.fileListReq, Req.fileReq "a.txt"] }

/-- State reached by the end-to-end run. -/
def sE2EAfter : Sys :=
  { fs := .dir [("version.json", .file (dumpVersionDoc "1.0.0")),
                ("main", .dir [("a.txt", .file "A"),
                               ("dir", .dir [("b.txt", .file "B")]),
                               (".version", .file (dumpVersionDoc "1.1.0"))])],
    resets := 1,
    log := [Req.versionReq, Req.fileListReq, Req.fileReq "a.txt", Req.fileReq "dir/b.txt"] }

/-- State reached when the second file download hits a transport error:
the cycle aborted, the first file is staged, no staging marker exists. -/
def sAbortAfter : Sys :=
  { fs := .dir [("version.json", .file (dumpVersionDoc "1.0.0")),
                ("next", .dir [("ok.txt", .file "OK")])],
    resets := 0,
    log := [Req.fileListReq, Req.fileReq "ok.txt", Req.fileReq "bad.txt"] }

/-- State reached when the second file answers 404: the failure is
skipped and the staging marker is still written. -/
def sSkipAfter : Sys :=
  { fs := .dir [("version.json", .file (dumpVersionDoc "1.0.0")),
                ("next", .dir [("ok.txt", .file "OK"),
                               (".version", .file (dumpVersionDoc "9"))])],
    resets := 0,
    log := [Req.fileListReq, Req.fileReq "ok.txt", Req.fileReq "bad.txt"] }

/-- Active marker `2.0.0` for the multi-digit comparison scenario. -/
def sLex : Sys :=
  { fs := .dir [("version.json", .file (dumpVersionDoc "2.0.0"))], resets := 0, log := [] }

/-- Remote announcing version `10.0.0`. -/
def rLex : Remote :=
  { latestVersion := some "10.0.0", fileList := some [], files := fun _ => none }

end OTA

namespace OTA

/-! # Lemmas -/

/-! ## Entry-list lemmas -/

theorem findEntry_modEntry_self (n : String) (f : Node → Node) (es : List (String × Node)) :
    findEntry n (modEntry n f es) = (findEntry n es).map f := by
  induction es with
  | nil => rfl
  | cons kv es ih =>
    obtain ⟨k, v⟩ := kv
    by_cases h : k = n <;> simp [findEntry, modEntry, h, ih]

theorem eraseEntry_modEntry (n : String) (f : Node → Node) (es : List (String × Node)) :
    eraseEntry n (modEntry n f es) = eraseEntry n es := by
  induction es with
  | nil => rfl
  | cons kv es ih =>
    obtain ⟨k, v⟩ := kv
    by_cases h : k = n <;> simp [eraseEntry, modEntry, h, ih]

theorem modEntry_modEntry (n : String) (f g : Node → Node) (es : List (String × Node)) :
    modEntry n f (modEntry n g es) = modEntry n (fun c => f (g c)) es := by
  induction es with
  | nil => rfl
  | cons kv es ih =>
    obtain ⟨k, v⟩ := kv
    by_cases h : k = n <;> simp [modEntry, h, ih]

theorem findEntry_eraseEntry_ne {m n : String} (h : m ≠ n) (es : List (String × Node)) :
    findEntry m (eraseEntry n es) = findEntry m es := by
  induction es with
  | nil => rfl
  | cons kv es ih =>
    obtain ⟨k, v⟩ := kv
    by_cases hk : k = n
    · subst hk
      simp [eraseEntry, findEntry, Ne.symm h]
    · simp only [eraseEntry, if_neg hk, findEntry]
      rw [ih]

theorem findEntry_eq_none_of_not_mem {n : String} {es : List (String × Node)}
    (h : n ∉ namesOf es) : findEntry n es = none := by
  induction es with
  | nil => rfl
  | cons kv es ih =>
    obtain ⟨k, v⟩ := kv
    simp only [namesOf, List.map_cons, List.mem_cons] at h
    push_neg at h
    simp only [findEntry]
    rw [if_neg (fun e => h.1 e.symm)]
    exact ih h.2

theorem findEntry_eraseEntry_self {n : String} {es : List (String × Node)}
    (h : (namesOf es).Nodup) : findEntry n (eraseEntry n es) = none := by
  induction es with
  | nil => rfl
  | cons kv es ih =>
    obtain ⟨k, v⟩ := kv
    simp only [namesOf, List.map_cons, List.nodup_cons] at h
    by_cases hk : k = n
    · subst hk
      have he : eraseEntry k ((k, v) :: es) = es := by simp [eraseEntry]
      rw [he]
      exact findEntry_eq_none_of_not_mem h.1
    · have he : eraseEntry n ((k, v) :: es) = (k, v) :: eraseEntry n es := by
        simp [eraseEntry, hk]
      rw [he]
      simp only [findEntry]
      rw [if_neg hk]
      exact ih h.2

theorem namesOf_eraseEntry_sublist (n : String) (es : List (String × Node)) :
    List.Sublist (namesOf (eraseEntry n es)) (namesOf es) := by
  induction es with
  | nil => exact List.Sublist.refl _
  | cons kv es ih =>
    obtain ⟨k, v⟩ := kv
    by_cases hk : k = n
    · have he : eraseEntry n ((k, v) :: es) = es := by simp [eraseEntry, hk]
      rw [he]
      exact (List.Sublist.refl _).cons _
    · have he : eraseEntry n ((k, v) :: es) = (k, v) :: eraseEntry n es := by
        simp [eraseEntry, hk]
      rw [he]
      exact ih.cons₂ _

theorem findEntry_append (n : String) (es es₂ : List (String × Node)) :
    findEntry n (es ++ es₂) =
      match findEntry n es with
      | some v => some v
      | none => findEntry n es₂ := by
  induction es with
  | nil => rfl
  | cons kv es ih =>
    obtain ⟨k, v⟩ := kv
    by_cases hk : k = n
    · simp only [List.cons_append, findEntry]
      rw [if_pos hk, if_pos hk]
    · simp only [List.cons_append, findEntry, List.append_eq]
      rw [if_neg hk, if_neg hk, ih]

/-! ## Path lemmas -/

theorem lookupN_mapAt_self {p : List String} :
    ∀ {fs x : Node} (f : Node → Node), lookupN fs p = some x →
      lookupN (mapAt fs p f) p = some (f x) := by
  induction p with
  | nil =>
    intro fs x f h
    simp only [lookupN] at h
    cases h
    simp only [mapAt, lookupN]
  | cons name rest ih =>
    intro fs x f h
    cases fs with
    | file c => simp [lookupN] at h
    | dir es =>
      simp only [lookupN] at h
      cases hf : findEntry name es with
      | none => rw [hf] at h; cases h
      | some c =>
        rw [hf] at h
        simp only [mapAt, lookupN, findEntry_modEntry_self, hf, Option.map_some]
        exact ih f h

theorem mapAt_append (p : List String) :
    ∀ (fs : Node) (q : List String) (f : Node → Node),
      mapAt fs (p ++ q) f = mapAt fs p (fun n => mapAt n q f) := by
  induction p with
  | nil => intro fs q f; simp only [List.nil_append, mapAt]
  | cons name rest ih =>
    intro fs q f
    cases fs with
    | file c => simp only [List.cons_append, mapAt]
    | dir es =>
      simp only [List.cons_append, mapAt, List.append_eq]
      have hfun : (fun c => mapAt c (rest ++ q) f) =
          (fun c => mapAt c rest (fun n => mapAt n q f)) :=
        funext fun c => ih c q f
      rw [hfun]

theorem mapAt_mapAt (p : List String) :
    ∀ (fs : Node) (f g : Node → Node),
      mapAt (mapAt fs p g) p f = mapAt fs p (fun n => f (g n)) := by
  induction p with
  | nil => intro fs f g; simp only [mapAt]
  | cons name rest ih =>
    intro fs f g
    cases fs with
    | file c => simp only [mapAt]
    | dir es =>
      simp only [mapAt, modEntry_modEntry]
      have hfun : (fun c => mapAt (mapAt c rest g) rest f) =
          (fun c => mapAt c rest (fun n => f (g n))) :=
        funext fun c => ih c f g
      rw [hfun]

theorem lookupN_append (p : List String) :
    ∀ (fs : Node) (q : List String),
      lookupN fs (p ++ q) = (lookupN fs p).bind (fun n => lookupN n q) := by
  induction p with
  | nil => intro fs q; simp only [List.nil_append, lookupN, Option.bind_eq_bind, Option.some_bind]
  | cons name rest ih =>
    intro fs q
    cases fs with
    | file c => simp only [List.cons_append, lookupN, Option.bind_eq_bind, Option.none_bind]
    | dir es =>
      simp only [List.cons_append, lookupN]
      cases findEntry name es with
      | none => simp
      | some c => exact ih c q

theorem modEntry_eq_self {n : String} {es : List (String × Node)} {c : Node}
    (hf : findEntry n es = some c) (f : Node → Node) (hfix : f c = c) :
    modEntry n f es = es := by
  induction es with
  | nil => cases hf
  | cons kv es ih =>
    obtain ⟨k, v⟩ := kv
    by_cases hk : k = n
    · simp only [findEntry, if_pos hk] at hf
      cases hf
      simp only [modEntry, if_pos hk, hfix]
    · simp only [findEntry, if_neg hk] at hf
      simp only [modEntry, if_neg hk]
      rw [ih hf]

theorem mapAt_eq_self {p : List String} :
    ∀ {fs x : Node} (f : Node → Node), lookupN fs p = some x → f x = x →
      mapAt fs p f = fs := by
  induction p with
  | nil =>
    intro fs x f h hfix
    simp only [lookupN] at h
    cases h
    simpa only [mapAt] using hfix
  | cons name rest ih =>
    intro fs x f h hfix
    cases fs with
    | file c => rfl
    | dir es =>
      simp only [lookupN] at h
      cases hf : findEntry name es with
      | none => rw [hf] at h; cases h
      | some c =>
        rw [hf] at h
        simp only [mapAt]
        rw [modEntry_eq_self hf _ (ih f h hfix)]

/-! ## Trace application lemmas -/

theorem applyOps_append (a : List Op) :
    ∀ (fs : Node) (b : List Op),
      applyOps fs (a ++ b) = (applyOps fs a).bind (fun fs' => applyOps fs' b) := by
  induction a with
  | nil => intro fs b; rfl
  | cons op a ih =>
    intro fs b
    simp only [List.cons_append, applyOps]
    cases applyOp fs op with
    | none => rfl
    | some fs' => exact ih fs' b

/-! ## The rmtree trace removes exactly the target subtree

`rmtreeEntries_spec` is the loop invariant: applying the trace for the
listed entries empties the directory at `p`; `rmtreeOps_spec` adds the
final `os.rmdir`, which only succeeds because the directory was emptied
first (the post-order guarantee). -/

theorem dirErase_mapAt_single (n : String) (x : Node) :
    dirErase n (mapAt x [n] (fun _ => Node.dir [])) = dirErase n x := by
  cases x with
  | file c => rfl
  | dir es => simp only [mapAt, dirErase, eraseEntry_modEntry]

theorem rmtreeEntries_spec :
    ∀ (k : Nat) (es : List (String × Node)), sizeOf es ≤ k →
      ∀ (p : List String) (fs : Node), lookupN fs p = some (.dir es) →
        applyOps fs (rmtreeEntries p es) = some (mapAt fs p (fun _ => .dir [])) := by
  intro k
  induction k using Nat.strong_induction_on with
  | _ k ih =>
    intro es hsz p fs hlk
    match es with
    | [] =>
      simp only [rmtreeEntries, applyOps]
      rw [mapAt_eq_self (fun _ => Node.dir []) hlk rfl]
    | (n, .file c) :: rest =>
      have hlt : sizeOf rest < k := by
        simp only [List.cons.sizeOf_spec] at hsz
        omega
      have hfind : lookupN fs (p ++ [n]) = some (.file c) := by
        rw [lookupN_append, hlk]
        simp [lookupN, findEntry]
      have hop : applyOp fs (Op.removeFile p n) = some (eraseAt fs p n) := by
        simp only [applyOp, hfind]
      have hlk1 : lookupN (eraseAt fs p n) p = some (.dir rest) := by
        have hm := lookupN_mapAt_self (dirErase n) hlk
        simpa [eraseAt, dirErase, eraseEntry] using hm
      have hrest := ih (sizeOf rest) hlt rest le_rfl p (eraseAt fs p n) hlk1
      simp only [rmtreeEntries, applyOps, hop]
      rw [hrest, eraseAt, mapAt_mapAt]
    | (n, .dir es') :: rest =>
      have hlt : sizeOf rest < k := by
        simp only [List.cons.sizeOf_spec] at hsz
        omega
      have hlt' : sizeOf es' < k := by
        simp only [List.cons.sizeOf_spec, Prod.mk.sizeOf_spec, Node.dir.sizeOf_spec] at hsz
        omega
      have hlkc : lookupN fs (p ++ [n]) = some (.dir es') := by
        rw [lookupN_append, hlk]
        simp [lookupN, findEntry]
      have h1 := ih (sizeOf es') hlt' es' le_rfl (p ++ [n]) fs hlkc
      have hlk1 : lookupN (mapAt fs (p ++ [n]) (fun _ => Node.dir [])) (p ++ [n]) =
          some (.dir []) := lookupN_mapAt_self _ hlkc
      have hop : applyOp (mapAt fs (p ++ [n]) (fun _ => Node.dir [])) (Op.removeDir p n) =
          some (eraseAt (mapAt fs (p ++ [n]) (fun _ => Node.dir [])) p n) := by
        simp only [applyOp, hlk1]
      have hfs2 : eraseAt (mapAt fs (p ++ [n]) (fun _ => Node.dir [])) p n =
          mapAt fs p (fun x => dirErase n (mapAt x [n] (fun _ => Node.dir []))) := by
        rw [eraseAt, mapAt_append, mapAt_mapAt]
      have hlk2 : lookupN (mapAt fs p
            (fun x => dirErase n (mapAt x [n] (fun _ => Node.dir [])))) p =
          some (.dir rest) := by
        have hm := lookupN_mapAt_self
          (fun x => dirErase n (mapAt x [n] (fun _ => Node.dir []))) hlk
        simpa [mapAt, dirErase, modEntry, eraseEntry] using hm
      have hrest := ih (sizeOf rest) hlt rest le_rfl p _ hlk2
      simp only [rmtreeEntries, rmtreeOps]
      rw [List.append_assoc, applyOps_append, h1]
      simp only [Option.bind_eq_bind, Option.some_bind, List.singleton_append, applyOps, hop,
        List.append_eq, List.nil_append]
      rw [hfs2, hrest, mapAt_mapAt]

theorem rmtreeOps_spec {fs : Node} {d : List String} {n : String} {es : List (String × Node)}
    (h : lookupN fs (d ++ [n]) = some (.dir es)) :
    applyOps fs (rmtreeOps d n (.dir es)) = some (eraseAt fs d n) := by
  have h1 := rmtreeEntries_spec (sizeOf es) es le_rfl (d ++ [n]) fs h
  have hlk1 : lookupN (mapAt fs (d ++ [n]) (fun _ => Node.dir [])) (d ++ [n]) =
      some (.dir []) := lookupN_mapAt_self _ h
  simp only [rmtreeOps]
  rw [applyOps_append, h1]
  simp only [Option.bind_eq_bind, Option.some_bind, applyOps, applyOp, hlk1]
  rw [eraseAt, eraseAt, mapAt_append, mapAt_mapAt]
  have hfun : (fun x => dirErase n (mapAt x [n] (fun _ => Node.dir []))) = dirErase n :=
    funext fun x => dirErase_mapAt_single n x
  rw [hfun]

theorem rmtreeRun_root {es : List (String × Node)} {m : String} {mes : List (String × Node)}
    (h : findEntry m es = some (.dir mes)) :
    rmtreeRun (.dir es) m = some (.dir (eraseEntry m es)) := by
  have hl : lookupN (Node.dir es) [m] = some (.dir mes) := by
    simp [lookupN, h]
  have hl' : lookupN (Node.dir es) ([] ++ [m]) = some (.dir mes) := by
    simpa using hl
  simp only [rmtreeRun, hl]
  rw [rmtreeOps_spec hl']
  simp [eraseAt, mapAt, dirErase]

/-! ## Version-document round trip -/

theorem parseStrBody_escape (v : List Char) (rest : List Char) :
    parseStrBody (escapeChars v ++ '"' :: rest) = some (v, rest) := by
  induction v with
  | nil =>
    show parseStrBody (([] : List Char) ++ '"' :: rest) = some ([], rest)
    rw [List.nil_append, parseStrBody.eq_def]
    simp
  | cons c cs ih =>
    by_cases h : c = '"' ∨ c = '\\'
    · have hesc : escapeChars (c :: cs) = '\\' :: c :: escapeChars cs := by
        rw [escapeChars.eq_def]
        simp only [if_pos h]
      rw [hesc, List.cons_append, List.cons_append, parseStrBody.eq_def]
      simp only [if_pos (rfl : ('\\' : Char) = '\\')]
      simp [ih]
    · have h1 : c ≠ '\\' := fun e => h (Or.inr e)
      have h2 : c ≠ '"' := fun e => h (Or.inl e)
      have hesc : escapeChars (c :: cs) = c :: escapeChars cs := by
        rw [escapeChars.eq_def]
        simp only [if_neg h]
      rw [hesc, List.cons_append, parseStrBody.eq_def]
      simp only [if_neg h1, if_neg h2]
      simp [ih]

theorem parseVersionDoc_dump (v : String) : parseVersionDoc (dumpVersionDoc v) = some v := by
  have hdata : (dumpVersionDoc v).data = docHead ++ (escapeChars v.data ++ docTail) := by
    simp [dumpVersionDoc]
  simp only [parseVersionDoc, hdata, List.take_left, if_pos rfl, List.drop_left]
  have htail : (docTail : List Char) = '"' :: ['\x7d'] := rfl
  rw [htail, parseStrBody_escape]
  rfl

/-! ## Writing then reading a file -/

theorem writeN_lookup :
    ∀ (p : List String) (fs fs' : Node) (content : String),
      writeN fs p content = some fs' → lookupN fs' p = some (.file content) := by
  intro p
  induction p with
  | nil =>
    intro fs fs' c h
    cases fs <;> simp [writeN] at h
  | cons name rest ih =>
    intro fs fs' c h
    cases fs with
    | file s => simp [writeN] at h
    | dir es =>
      cases rest with
      | nil =>
        simp only [writeN] at h
        cases hf : findEntry name es with
        | none =>
          simp only [hf] at h
          cases h
          simp only [lookupN, findEntry_append, hf]
          simp [findEntry, lookupN]
        | some sub =>
          cases sub with
          | file s0 =>
            simp only [hf] at h
            cases h
            simp only [lookupN, findEntry_modEntry_self, hf, Option.map_some]
            simp [lookupN]
          | dir d0 =>
            simp only [hf] at h
            cases h
      | cons r2 rs =>
        simp only [writeN] at h
        cases hf : findEntry name es with
        | none =>
          simp only [hf] at h
          cases h
        | some sub =>
          simp only [hf] at h
          cases hw : writeN sub (r2 :: rs) c with
          | none => simp [hw] at h
          | some sub' =>
            simp only [hw, Option.map_some] at h
            cases h
            simp only [lookupN, findEntry_modEntry_self, hf, Option.map_some]
            exact ih sub sub' c hw

/-! ## Frame lemmas for the download chain -/

theorem download_file_resets (r : Remote) (s : Sys) (f : String) :
    (download_file r s f).2.resets = s.resets := by
  simp only [download_file]
  split
  · rfl
  · split
    · split
      · rfl
      · split
        · rfl
        · rfl
    · rfl

theorem download_file_log (r : Remote) (s : Sys) (f : String) :
    (download_file r s f).2.log = s.log ++ [Req.fileReq f] := by
  simp only [download_file]
  split
  · rfl
  · split
    · split
      · rfl
      · split
        · rfl
        · rfl
    · rfl

theorem download_files_loop_resets (r : Remote) :
    ∀ (fl : List String) (s : Sys), (download_files_loop r s fl).2.resets = s.resets := by
  intro fl
  induction fl with
  | nil => intro s; rfl
  | cons f rest ih =>
    intro s
    rcases hdf : download_file r s f with ⟨o, s'⟩
    have hres : s'.resets = s.resets := by
      rw [← download_file_resets r s f, hdf]
    cases o with
    | some u =>
      simp only [download_files_loop, hdf]
      rw [ih s', hres]
    | none =>
      simp only [download_files_loop, hdf]
      exact hres

theorem download_files_loop_log (r : Remote) :
    ∀ (fl : List String) (s : Sys), ∃ t, (download_files_loop r s fl).2.log = s.log ++ t := by
  intro fl
  induction fl with
  | nil => intro s; exact ⟨[], by simp [download_files_loop]⟩
  | cons f rest ih =>
    intro s
    rcases hdf : download_file r s f with ⟨o, s'⟩
    have hlog : s'.log = s.log ++ [Req.fileReq f] := by
      rw [← download_file_log r s f, hdf]
    cases o with
    | some u =>
      obtain ⟨t, ht⟩ := ih s'
      refine ⟨[Req.fileReq f] ++ t, ?_⟩
      simp only [download_files_loop, hdf]
      rw [ht, hlog, List.append_assoc]
    | none =>
      refine ⟨[Req.fileReq f], ?_⟩
      simp only [download_files_loop, hdf]
      exact hlog

theorem download_all_files_resets (r : Remote) (s : Sys) (v : String) :
    (download_all_files r s v).2.resets = s.resets := by
  simp only [download_all_files, get_file_list]
  cases r.fileList with
  | none => rfl
  | some fl =>
    rcases hlp : download_files_loop r { s with log := s.log ++ [Req.fileListReq] } fl
      with ⟨o, s2⟩
    have hres : s2.resets = s.resets := by
      rw [← download_files_loop_resets r fl { s with log := s.log ++ [Req.fileListReq] }, hlp]
    cases o with
    | none => simpa only [hlp] using hres
    | some u =>
      simp only [hlp]
      cases create_version_file s2.fs v with
      | none => exact hres
      | some fs' => exact hres

theorem download_all_files_log_mem (r : Remote) (s : Sys) (v : String) :
    Req.fileListReq ∈ (download_all_files r s v).2.log := by
  simp only [download_all_files, get_file_list]
  cases r.fileList with
  | none => simp
  | some fl =>
    rcases hlp : download_files_loop r { s with log := s.log ++ [Req.fileListReq] } fl
      with ⟨o, s2⟩
    have hlog : ∃ t, s2.log = (s.log ++ [Req.fileListReq]) ++ t := by
      obtain ⟨t, ht⟩ :=
        download_files_loop_log r fl { s with log := s.log ++ [Req.fileListReq] }
      exact ⟨t, by rw [← ht, hlp]⟩
    obtain ⟨t, ht⟩ := hlog
    have hmem : Req.fileListReq ∈ s2.log := by
      rw [ht]
      simp
    cases o with
    | none => simpa only [hlp] using hmem
    | some u =>
      simp only [hlp]
      cases create_version_file s2.fs v with
      | none => exact hmem
      | some fs' => exact hmem

theorem download_latest_version_resets (r : Remote) (s : Sys) :
    (download_latest_version r s).2.resets = s.resets := by
  simp only [download_latest_version, get_latest_version]
  cases r.latestVersion with
  | none => rfl
  | some v =>
    rcases hda : download_all_files r { s with log := s.log ++ [Req.versionReq] } v
      with ⟨o, s2⟩
    have hres : s2.resets = s.resets := by
      rw [← download_all_files_resets r { s with log := s.log ++ [Req.versionReq] } v, hda]
    cases o with
    | none => simpa only [hda] using hres
    | some u => simpa only [hda] using hres

theorem download_latest_version_log_mem {r : Remote} {s : Sys} {lv : String} {s1 : Sys}
    (h : download_latest_version r s = (some lv, s1)) : Req.fileListReq ∈ s1.log := by
  simp only [download_latest_version, get_latest_version] at h
  cases hv : r.latestVersion with
  | none =>
    simp only [hv] at h
    simp at h
  | some v =>
    simp only [hv] at h
    rcases hda : download_all_files r { s with log := s.log ++ [Req.versionReq] } v
      with ⟨o, s2⟩
    have hmem : Req.fileListReq ∈ s2.log := by
      have hq := download_all_files_log_mem r { s with log := s.log ++ [Req.versionReq] } v
      rwa [hda] at hq
    rw [hda] at h
    cases o with
    | none => simp at h
    | some u =>
      have h2 : s2 = s1 := congrArg Prod.snd h
      rwa [h2] at hmem

/-! ## The installer's success path -/

theorem install_success {s : Sys} {es nes mes : List (String × Node)}
    (hroot : s.fs = .dir es)
    (hnext : findEntry new_version_dir es = some (.dir nes))
    (hmark : (namesOf nes).contains ".version" = true)
    (hgt : pyGt (get_version s.fs [new_version_dir, ".version"])
      (get_version s.fs version_file) = true)
    (hmain : findEntry main_dir es = some (.dir mes))
    (hnd : (namesOf es).Nodup) :
    install_update_if_available s =
      (some (), { s with
        fs := .dir (eraseEntry new_version_dir (eraseEntry main_dir es) ++
          [(main_dir, .dir nes)]),
        resets := s.resets + 1 }) := by
  have hre : rootEntries s.fs = es := by rw [hroot]; rfl
  have hrm : rmtreeRun s.fs main_dir = some (.dir (eraseEntry main_dir es)) := by
    rw [hroot]
    exact rmtreeRun_root hmain
  have hfindN : findEntry new_version_dir (eraseEntry main_dir es) = some (.dir nes) := by
    rw [findEntry_eraseEntry_ne (by decide : new_version_dir ≠ main_dir), hnext]
  have hfindM : findEntry main_dir (eraseEntry main_dir es) = none :=
    findEntry_eraseEntry_self hnd
  have hren : renameRootN (.dir (eraseEntry main_dir es)) new_version_dir main_dir =
      some (.dir (eraseEntry new_version_dir (eraseEntry main_dir es) ++
        [(main_dir, .dir nes)])) := by
    simp only [renameRootN, hfindN, hfindM, Option.isSome_none, Bool.false_eq_true,
      if_false]
  simp only [install_update_if_available, hre, hnext, hmark, if_true, hgt, hrm, hren]

theorem install_skip {s : Sys} {es nes : List (String × Node)}
    (hroot : s.fs = .dir es)
    (hnext : findEntry new_version_dir es = some (.dir nes))
    (hmark : (namesOf nes).contains ".version" = true)
    (hgt : pyGt (get_version s.fs [new_version_dir, ".version"])
      (get_version s.fs version_file) = false) :
    install_update_if_available s = (some (), s) := by
  have hre : rootEntries s.fs = es := by rw [hroot]; rfl
  simp only [install_update_if_available, hre, hnext, hmark, if_true, hgt,
    Bool.false_eq_true, if_false]

/-- Writing a version marker and reading it back through `get_version`
yields the written token (shared helper). -/
theorem create_version_file_get {fs fs' : Node} {v : String}
    (h : create_version_file fs v = some fs') :
    get_version fs' [new_version_dir, ".version"] = v := by
  simp only [create_version_file] at h
  cases hm : makedirsN fs [new_version_dir] with
  | none =>
    simp only [hm] at h
    cases h
  | some fs1 =>
    simp only [hm] at h
    have hl := writeN_lookup _ fs1 fs' _ h
    simp only [get_version, hl, parseVersionDoc_dump]

/-! # Claims -/

/-- C7: `get_version` is a total function of the store (it cannot raise:
the source wraps the read and parse in a bare `try/except`); on any read
or parse failure — missing file, a directory at the path, malformed
content, or a document without the `version` field (all the cases where
`parseVersionDoc` yields `none`) — it returns `'0.0.0'`, the defined
minimum version token, so absence of history reads as "oldest". -/
theorem get_version_defaults_on_failure (fs : Node) (p : List String)
    (h : ∀ str, lookupN fs p = some (.file str) → parseVersionDoc str = none) :
    get_version fs p = "0.0.0" := by
  cases hl : lookupN fs p with
  | none => simp [get_version, hl]
  | some node =>
    cases node with
    | file str => simp [get_version, hl, h str hl]
    | dir es => simp [get_version, hl]

/-- C7 witness: a store whose `version.json` holds malformed content. -/
theorem get_version_defaults_on_failure_witness :
    get_version (.dir [("version.json", .file "not json")]) ["version.json"] = "0.0.0" :=
  get_version_defaults_on_failure _ _ (fun str h => by
    simp [lookupN, findEntry] at h
    subst h
    rfl)

/-- C8: with active version `2.0.0` and remote version `10.0.0`,
dotted-integer comparison says the remote is newer, but `check_for_update`
uses Python string comparison (`pyGt`), under which `"10.0.0" > "2.0.0"`
is false, so no update is considered available. -/
theorem lexicographic_gate_rejects_multidigit :
    semverNewer "10.0.0" "2.0.0" = true ∧
    pyGt "10.0.0" "2.0.0" = false ∧
    check_for_update rLex sLex = (some false, { sLex with log := [Req.versionReq] }) :=
  ⟨by decide, by decide, rfl⟩

/-- C9: the recursive delete issues its primitive operations in
post-order — files are removed with `os.remove`, directories are recursed
into and removed with `os.rmdir` only after their contents (the `applyOp`
preconditions accept `os.rmdir` only on an empty directory) — and the
whole trace succeeds, leaving the filesystem with the target entry
removed entirely: no entry of the old tree remains. -/
theorem rmtree_removes_subtree {fs : Node} {d : List String} {n : String}
    {es : List (String × Node)} (h : lookupN fs (d ++ [n]) = some (.dir es)) :
    applyOps fs (rmtreeOps d n (.dir es)) = some (eraseAt fs d n) :=
  rmtreeOps_spec h

/-- C9 witness: a nested tree with files and subdirectories. -/
theorem rmtree_removes_subtree_witness :
    applyOps fsTree (rmtreeOps [] "main"
      (.dir [("a.txt", .file "a"),
             ("d", .dir [("b.txt", .file "b"), ("e", .dir [("c.txt", .file "c")])]),
             ("z.txt", .file "z")])) = some (eraseAt fsTree [] "main") :=
  rmtree_removes_subtree (by rfl)

/-- C10: writing a staging marker with token `T` via
`create_version_file` and reading that marker back with `get_version` on
the staging marker path yields exactly `T`, for every token `T` (JSON
string escaping round-trips). -/
theorem version_marker_roundtrip {fs fs' : Node} {v : String}
    (h : create_version_file fs v = some fs') :
    get_version fs' [new_version_dir, ".version"] = v :=
  create_version_file_get h

/-- C10 witness: round trip of `1.2.3` from an empty store. -/
theorem version_marker_roundtrip_witness :
    get_version (.dir [("next", .dir [(".version", .file (dumpVersionDoc "1.2.3"))])])
      [new_version_dir, ".version"] = "1.2.3" :=
  version_marker_roundtrip (by
    show create_version_file (.dir []) "1.2.3" =
      some (.dir [("next", .dir [(".version", .file (dumpVersionDoc "1.2.3"))])])
    rfl)

/-- C4: if a staging directory exists but holds no `.version` marker, the
boot-time resume reports nothing to install (`false`) and returns the
state completely unchanged — no mutation of the active install. -/
theorem resume_ignores_incomplete_staging {s : Sys} {nes : List (String × Node)}
    (hnext : findEntry new_version_dir (rootEntries s.fs) = some (.dir nes))
    (hnomark : (namesOf nes).contains ".version" = false) :
    check_for_update_to_install_during_next_reboot s = (some false, s) := by
  simp only [check_for_update_to_install_during_next_reboot, hnext, hnomark,
    Bool.false_eq_true, if_false]

/-- C4 witness: a staging area holding a file but no marker. -/
theorem resume_ignores_incomplete_staging_witness :
    check_for_update_to_install_during_next_reboot sIncomplete = (some false, sIncomplete) :=
  resume_ignores_incomplete_staging (by rfl) (by decide)

/-- C3: for any store with a complete staging area, the installer's
destructive swap (delete the active directory, rename the staging
directory, trigger a restart) runs exactly when the staged version is
strictly greater than the active version under the order the code uses
(Python string comparison): when greater it installs (and counts one
restart), otherwise it performs no mutation at all — the state is
returned unchanged. -/
theorem install_gated_on_version_order {s : Sys} {es nes mes : List (String × Node)}
    (hroot : s.fs = .dir es)
    (hnext : findEntry new_version_dir es = some (.dir nes))
    (hmark : (namesOf nes).contains ".version" = true)
    (hmain : findEntry main_dir es = some (.dir mes))
    (hnd : (namesOf es).Nodup) :
    (pyGt (get_version s.fs [new_version_dir, ".version"])
        (get_version s.fs version_file) = true →
      install_update_if_available s =
        (some (), { s with
          fs := .dir (eraseEntry new_version_dir (eraseEntry main_dir es) ++
            [(main_dir, .dir nes)]),
          resets := s.resets + 1 })) ∧
    (pyGt (get_version s.fs [new_version_dir, ".version"])
        (get_version s.fs version_file) = false →
      install_update_if_available s = (some (), s)) :=
  ⟨fun hgt => install_success hroot hnext hmark hgt hmain hnd,
   fun hle => install_skip hroot hnext hmark hle⟩

/-- C3 witness: staging `1.1.0` over active `1.0.0` installs and counts
one restart. -/
theorem install_gated_on_version_order_witness :
    install_update_if_available sStaged =
      (some (), { sStaged with
        fs := .dir [("version.json", .file (dumpVersionDoc "1.0.0")),
                    ("main", .dir [("a.txt", .file "A"),
                                   (".version", .file (dumpVersionDoc "1.1.0"))])],
        resets := 1 }) :=
  (install_gated_on_version_order (s := sStaged) rfl rfl (by decide) rfl (by decide)).1
    (by decide)

/-- C1 counterexample: in the stale-server scenario (active `2.0.0`,
remote `1.9.0`) `download_and_install_update_if_available` returns false
— but it has already fetched the manifest and the release file and
written them to the staging area, contradicting "performs no network
file fetch, writes nothing to the staging area". -/
theorem stale_server_fetch_counterexample :
    download_and_install_update_if_available rStale sStale = (some false, sStaleAfter) ∧
    Req.fileListReq ∈ sStaleAfter.log ∧
    Req.fileReq "a.txt" ∈ sStaleAfter.log ∧
    lookupN sStaleAfter.fs [new_version_dir, "a.txt"] = some (.file "payload") :=
  ⟨rfl, by decide, by decide, rfl⟩

/-- C1 amended: `download_and_install_update_if_available` fetches the
remote version and then unconditionally fetches the manifest and all
release files into the staging area (`download_latest_version` downloads
before any comparison); only the install and restart are gated on the
remote version being newer.  When the remote version is not newer it
returns false, triggers no restart, and performs no install — but the
manifest fetch (and staging download) has already happened. -/
theorem stale_remote_downloads_but_skips_install {r : Remote} {s : Sys}
    {lv : String} {s1 : Sys}
    (hdl : download_latest_version r s = (some lv, s1))
    (hstale : pyGt lv (get_version s.fs version_file) = false) :
    download_and_install_update_if_available r s = (some false, s1) ∧
      s1.resets = s.resets ∧ Req.fileListReq ∈ s1.log := by
  refine ⟨?_, ?_, download_latest_version_log_mem hdl⟩
  · simp only [download_and_install_update_if_available, hdl, hstale,
      Bool.false_eq_true, if_false]
  · rw [← download_latest_version_resets r s, hdl]

/-- C1 witness: the stale-server scenario run through the amended
statement. -/
theorem stale_remote_downloads_but_skips_install_witness :
    download_and_install_update_if_available rStale sStale = (some false, sStaleAfter) ∧
      sStaleAfter.resets = sStale.resets ∧ Req.fileListReq ∈ sStaleAfter.log :=
  stale_remote_downloads_but_skips_install (by rfl) (by decide)

/-- C2 counterexample: after the end-to-end run the swap did happen, but
the active directory does not contain *exactly* the downloaded files (the
staging marker `.version` was renamed along with them), and the active
version marker the program itself reads back (`version.json`, which the
installer never updates) still holds `1.0.0`, not `1.1.0`. -/
theorem end_to_end_counterexample :
    download_and_install_update_if_available rE2E sE2E = (some true, sE2EAfter) ∧
    lookupN sE2EAfter.fs [main_dir, ".version"] =
      some (.file (dumpVersionDoc "1.1.0")) ∧
    get_version sE2EAfter.fs version_file = "1.0.0" ∧
    get_version sE2EAfter.fs version_file ≠ "1.1.0" :=
  ⟨rfl, rfl, rfl, by decide⟩

/-- C2 amended: in the end-to-end scenario, after
`download_and_install_update_if_available`: the staging area no longer
exists; the active directory contains the two downloaded files *plus*
the staging marker `.version` (which reads `1.1.0`); the top-level
`version.json` marker still reads `1.0.0` (the installer never rewrites
it); and a restart was triggered exactly once. -/
theorem end_to_end_amended :
    download_and_install_update_if_available rE2E sE2E = (some true, sE2EAfter) ∧
    lookupN sE2EAfter.fs [new_version_dir] = none ∧
    lookupN sE2EAfter.fs [main_dir] =
      some (.dir [("a.txt", .file "A"),
                  ("dir", .dir [("b.txt", .file "B")]),
                  (".version", .file (dumpVersionDoc "1.1.0"))]) ∧
    get_version sE2EAfter.fs [main_dir, ".version"] = "1.1.0" ∧
    get_version sE2EAfter.fs version_file = "1.0.0" ∧
    sE2EAfter.resets = sE2E.resets + 1 :=
  ⟨rfl, rfl, rfl, rfl, rfl, rfl⟩

/-- C6 counterexample: a transport error on a file (an exception out of
`requests.get`, modelled by `Remote.files` answering `none`) aborts the
whole download cycle — `download_all_files` propagates the exception and
the staging marker is never written — contradicting "a per-file failure
(non-200 response or transport error) does not abort the cycle". -/
theorem transport_error_aborts_counterexample :
    download_all_files rAbort sPlain "9" = (none, sAbortAfter) ∧
    lookupN sAbortAfter.fs [new_version_dir, ".version"] = none :=
  ⟨rfl, rfl⟩

/-- C6 amended: a non-200 response is a per-file failure that is skipped
— `download_file` records the request, writes nothing and continues —
and whenever the iteration over the manifest completes (which it does
even when some files answered non-200), the staging marker is written
with the target version as the last step.  A transport error, by
contrast, raises and aborts the cycle before the marker is written. -/
theorem per_file_failure_policy :
    (∀ (r : Remote) (s : Sys) (f : String) (status : Nat) (body : String),
      r.files f = some (status, body) → status ≠ 200 →
      download_file r s f = (some (), { s with log := s.log ++ [Req.fileReq f] })) ∧
    (∀ (r : Remote) (s : Sys) (v : String) (u : Unit) (s' : Sys),
      download_all_files r s v = (some u, s') →
      get_version s'.fs [new_version_dir, ".version"] = v) := by
  constructor
  · intro r s f status body hf hst
    simp only [download_file, hf, if_neg hst]
  · intro r s v u s' h
    simp only [download_all_files, get_file_list] at h
    cases hfl : r.fileList with
    | none =>
      simp only [hfl] at h
      cases h
    | some fl =>
      simp only [hfl] at h
      rcases hlp : download_files_loop r { s with log := s.log ++ [Req.fileListReq] } fl
        with ⟨o, s2⟩
      rw [hlp] at h
      cases o with
      | none => simp at h
      | some u2 =>
        cases hc : create_version_file s2.fs v with
        | none => simp only [hc] at h; cases h
        | some fs' =>
          simp only [hc] at h
          have hs' : s'.fs = fs' := (congrArg (fun q => q.2.fs) h).symm
          rw [hs']
          exact create_version_file_get hc

/-- C6 witness: a 404 on `bad.txt` is skipped and the completed cycle
still writes the marker with the target version. -/
theorem per_file_failure_policy_witness :
    download_file rSkip sPlain "bad.txt" =
      (some (), { sPlain with log := sPlain.log ++ [Req.fileReq "bad.txt"] }) ∧
    get_version sSkipAfter.fs [new_version_dir, ".version"] = "9" :=
  ⟨per_file_failure_policy.1 rSkip sPlain "bad.txt" 404 "nope" rfl (by decide),
   per_file_failure_policy.2 rSkip sPlain "9" () sSkipAfter (by rfl)⟩

/-- Helper for the resume idempotence claim: the first call returned a
no-install outcome, so the state is unchanged and the second call
coincides with the first. -/
theorem resume_false_case {s s' : Sys} {b : Bool}
    (h : check_for_update_to_install_during_next_reboot s = (some b, s'))
    (hck : check_for_update_to_install_during_next_reboot s = (some false, s)) :
    check_for_update_to_install_during_next_reboot s' = (some false, s') ∧
      s'.resets ≤ s.resets + 1 := by
  rw [h] at hck
  injection hck with h1 h2
  injection h1 with h1
  subst h2
  exact ⟨by rw [h, h1], Nat.le_succ _⟩

/-- Helper for the resume idempotence claim: a raised exception
contradicts the hypothesis that the call returned. -/
theorem resume_none_contra {s s' : Sys} {b : Bool} {P : Prop} (s₀ : Sys)
    (h : check_for_update_to_install_during_next_reboot s = (some b, s'))
    (hck : check_for_update_to_install_during_next_reboot s = (none, s₀)) : P := by
  rw [h] at hck
  exact Option.noConfusion (congrArg Prod.fst hck)

/-- Helper: with no staging directory entry at the root, the boot-time
resume reports false and leaves the state untouched. -/
theorem resume_no_staging {t : Sys}
    (hno : findEntry new_version_dir (rootEntries t.fs) = none) :
    check_for_update_to_install_during_next_reboot t = (some false, t) := by
  simp only [check_for_update_to_install_during_next_reboot, hno]

/-- C5: calling the boot-time resume twice in a row with no intervening
download performs the directory swap at most once (the restart counter
grows by at most one across both calls, and the second call changes
nothing), and the second call returns the no-install outcome `false`. -/
theorem resume_idempotent {s : Sys} {b : Bool} {s' : Sys}
    (hnd : (namesOf (rootEntries s.fs)).Nodup)
    (h : check_for_update_to_install_during_next_reboot s = (some b, s')) :
    check_for_update_to_install_during_next_reboot s' = (some false, s') ∧
      s'.resets ≤ s.resets + 1 := by
  cases hfs : s.fs with
  | file c =>
    refine resume_false_case h ?_
    have hno : findEntry new_version_dir (rootEntries s.fs) = none := by
      rw [hfs]
      rfl
    exact resume_no_staging hno
  | dir es =>
    have hre : rootEntries s.fs = es := by rw [hfs]; rfl
    cases hfind : findEntry new_version_dir es with
    | none =>
      exact resume_false_case h (resume_no_staging (by rw [hre, hfind]))
    | some node =>
      cases node with
      | file c =>
        refine resume_none_contra s h ?_
        simp only [check_for_update_to_install_during_next_reboot, hre, hfind]
      | dir nes =>
        cases hmark : (namesOf nes).contains ".version" with
        | false =>
          refine resume_false_case h ?_
          simp only [check_for_update_to_install_during_next_reboot, hre, hfind, hmark,
            Bool.false_eq_true, if_false]
        | true =>
          cases hgt : pyGt (get_version s.fs [new_version_dir, ".version"])
              (get_version s.fs version_file) with
          | false =>
            refine resume_false_case h ?_
            simp only [check_for_update_to_install_during_next_reboot, hre, hfind, hmark,
              if_true, hgt, Bool.false_eq_true, if_false]
          | true =>
            cases hmain : findEntry main_dir es with
            | none =>
              refine resume_none_contra s h ?_
              have hrm : rmtreeRun s.fs main_dir = none := by
                rw [hfs]
                simp [rmtreeRun, lookupN, hmain]
              simp only [check_for_update_to_install_during_next_reboot, hre, hfind,
                hmark, if_true, hgt, install_update_if_available, hrm]
            | some mnode =>
              cases mnode with
              | file mc =>
                refine resume_none_contra s h ?_
                have hrm : rmtreeRun s.fs main_dir = none := by
                  rw [hfs]
                  simp [rmtreeRun, lookupN, hmain]
                simp only [check_for_update_to_install_during_next_reboot, hre, hfind,
                  hmark, if_true, hgt, install_update_if_available, hrm]
              | dir mes =>
                have hnd' : (namesOf es).Nodup := by rwa [hre] at hnd
                have hins := install_success hfs hfind hmark hgt hmain hnd'
                have hck : check_for_update_to_install_during_next_reboot s =
                    (some true, { s with
                      fs := .dir (eraseEntry new_version_dir (eraseEntry main_dir es) ++
                        [(main_dir, .dir nes)]),
                      resets := s.resets + 1 }) := by
                  simp only [check_for_update_to_install_during_next_reboot, hre, hfind,
                    hmark, if_true, hgt, hins]
                rw [h] at hck
                injection hck with h1 h2
                subst h2
                have hnd2 : (namesOf (eraseEntry main_dir es)).Nodup :=
                  (namesOf_eraseEntry_sublist main_dir es).nodup hnd'
                have hno : findEntry new_version_dir
                    (eraseEntry new_version_dir (eraseEntry main_dir es) ++
                      [(main_dir, .dir nes)]) = none := by
                  rw [findEntry_append, findEntry_eraseEntry_self hnd2]
                  simp [findEntry]
                  decide
                exact ⟨resume_no_staging hno, le_refl _⟩

/-- C5 witness: a complete staging area is installed by the first call;
the second call reports false on the unchanged state. -/
theorem resume_idempotent_witness :
    check_for_update_to_install_during_next_reboot
        (check_for_update_to_install_during_next_reboot sStaged).2 =
      (some false, (check_for_update_to_install_during_next_reboot sStaged).2) ∧
    (check_for_update_to_install_during_next_reboot sStaged).2.resets ≤
      sStaged.resets + 1 :=
  resume_idempotent (by decide) (b := true) (by rfl)

end OTA


